import Mathlib

/-!
Verification of the CISA KEV ETL connector (etl_connector.py) against its
natural-language specification.

The connector is a linear extract → transform → load pipeline.  This file
gives a shallow embedding of the pieces the claims are about:

* the strict two-format date parser `_parse_date` (CPython `strptime` with
  the formats `%Y-%m-%d` and `%m/%d/%Y`: the year is exactly four digits,
  month and day are one or two digits constrained by the compiled regex,
  and the `datetime` constructor validates the calendar date);
* the risk-tier function `_calculate_risk_level`;
* the quality score `_calculate_kev_quality` (Python floats are modelled as
  exact rationals; this is faithful here because the only reachable scores
  are k/6 for k = 0..6, whose 2-decimal roundings are unaffected by the
  double-precision representation error or by the round-half-even tie rule,
  no reachable value being a tie);
* the recency / overdue / day-count derivations (timestamps are modelled as
  integers, in seconds; `timedelta.days` is floor division by 86400);
* `transform_data`, with the batch timestamp taken once and an explicit
  clock stream for the per-record `datetime.now()` calls (record i makes
  calls 4*i .. 4*i+3, in the order recent / overdue / days-since /
  days-until);
* `load_data` over a list-of-documents model of the Mongo collection, with
  `replace_one(..., upsert=True)` replacing the first matching document or
  appending, and `modified_count` zero when the replacement equals the
  stored document (documented MongoDB behaviour);
* the orchestrator `run_etl_pipeline` and the `main` exit-code mapping;
* `extract_data` over an oracle giving the outcome of each HTTP GET
  (`raise_for_status` raises exactly for statuses in [400, 600)).

Characters are modelled at ASCII granularity (`Char.isDigit`,
`Char.toLower`), which covers the catalog's data; the Unicode-digit corner
of CPython's `strptime` and full-Unicode `str.lower` are outside the model.
-/

/-! ## Dates and the two-format parser -/

/-- A parsed calendar date (the `datetime` produced by `strptime` is this
date at midnight). -/
structure Date where
  year : Nat
  month : Nat
  day : Nat
deriving DecidableEq

/-- Split a character list on a separator; mirrors how the compiled
`strptime` regex decomposes the input, since the separator characters are
not digits and every component pattern is digit-only. -/
def splitOnChar (sep : Char) : List Char → List (List Char)
  | [] => [[]]
  | c :: rest =>
    match splitOnChar sep rest with
    | [] => [[]]
    | g :: gs => if c = sep then [] :: g :: gs else (c :: g) :: gs

/-- Rejoin what `splitOnChar` produced (used only to state its inversion). -/
def joinWithSep (sep : Char) : List (List Char) → List Char
  | [] => []
  | [g] => g
  | g :: gs => g ++ sep :: joinWithSep sep gs

/-- Numeric value of a decimal digit character. -/
def digitVal (c : Char) : Nat := c.toNat - 48

/-- Value of a digit string, most significant first (what `int()` computes
on the captured group). -/
def digitsVal (cs : List Char) : Nat := cs.foldl (fun a c => a * 10 + digitVal c) 0

/-- The `%Y` pattern of `strptime`: exactly four digits. -/
def yearPat (cs : List Char) : Bool := cs.length = 4 && cs.all Char.isDigit

/-- The `%m` pattern `(1[0-2]|0[1-9]|[1-9])`: one or two digits with value
1..12. -/
def monthPat (cs : List Char) : Bool :=
  cs.all Char.isDigit && (cs.length = 1 || cs.length = 2)
    && 1 ≤ digitsVal cs && digitsVal cs ≤ 12

/-- The `%d` pattern `(3[01]|[12]\d|0[1-9]|[1-9])`: one or two digits with
value 1..31. -/
def dayPat (cs : List Char) : Bool :=
  cs.all Char.isDigit && (cs.length = 1 || cs.length = 2)
    && 1 ≤ digitsVal cs && digitsVal cs ≤ 31

/-- Gregorian leap-year rule (`calendar.isleap`). -/
def isLeapYear (y : Nat) : Bool := (y % 4 = 0 && y % 100 ≠ 0) || y % 400 = 0

/-- Days in a month, as validated by the `datetime` constructor. -/
def daysInMonth (y m : Nat) : Nat :=
  if m = 2 then (if isLeapYear y then 29 else 28)
  else if m = 4 ∨ m = 6 ∨ m = 9 ∨ m = 11 then 30
  else 31

/-- The `datetime(y, m, d)` constructor check: year in [1, 9999], month in
[1, 12], day in [1, days-in-month]. -/
def validDate (y m d : Nat) : Bool :=
  1 ≤ y && y ≤ 9999 && 1 ≤ m && m ≤ 12 && 1 ≤ d && d ≤ daysInMonth y m

/-- Decompose a string into exactly three separator-delimited components. -/
def parse3 (sep : Char) (s : String) : Option (List Char × List Char × List Char) :=
  match splitOnChar sep s.data with
  | [a, b, c] => some (a, b, c)
  | _ => none

/-- `datetime.strptime(s, "%Y-%m-%d")`, as an `Option`: `none` is the
`ValueError` path. -/
def strptime_ymd (s : String) : Option Date :=
  match parse3 '-' s with
  | some (ys, ms, ds) =>
    if yearPat ys = true ∧ monthPat ms = true ∧ dayPat ds = true
        ∧ 1 ≤ digitsVal ys ∧ digitsVal ds ≤ daysInMonth (digitsVal ys) (digitsVal ms) then
      some ⟨digitsVal ys, digitsVal ms, digitsVal ds⟩
    else none
  | none => none

/-- `datetime.strptime(s, "%m/%d/%Y")`, as an `Option`. -/
def strptime_mdy (s : String) : Option Date :=
  match parse3 '/' s with
  | some (ms, ds, ys) =>
    if yearPat ys = true ∧ monthPat ms = true ∧ dayPat ds = true
        ∧ 1 ≤ digitsVal ys ∧ digitsVal ds ≤ daysInMonth (digitsVal ys) (digitsVal ms) then
      some ⟨digitsVal ys, digitsVal ms, digitsVal ds⟩
    else none
  | none => none

/-- `_parse_date`: empty string is falsy and maps to `None`; otherwise try
`%Y-%m-%d`, then `%m/%d/%Y`, else `None`. -/
def parse_date (s : String) : Option Date :=
  if s = "" then none
  else
    match strptime_ymd s with
    | some d => some d
    | none => strptime_mdy s

/-! ### Spec-level format predicates

`specYMD`/`specMDY` formalise the frozen claim's words: the zero-padded
textual formats `YYYY-MM-DD` and `MM/DD/YYYY` denoting a valid calendar
date.  `LenientYMD`/`LenientMDY` are the declarative statements of the
amended claim: four-digit year, one-or-two-digit month and day. -/

/-- The calendar date denoted by a string of the exact padded form
`YYYY-MM-DD`, if any (claim wording). -/
def specYMD (s : String) : Option Date :=
  match s.data with
  | [y1, y2, y3, y4, h1, m1, m2, h2, d1, d2] =>
    if ([y1, y2, y3, y4].all Char.isDigit && h1 = '-' && [m1, m2].all Char.isDigit
        && h2 = '-' && [d1, d2].all Char.isDigit) then
      let y := digitsVal [y1, y2, y3, y4]
      let m := digitsVal [m1, m2]
      let d := digitsVal [d1, d2]
      if validDate y m d then some ⟨y, m, d⟩ else none
    else none
  | _ => none

/-- The calendar date denoted by a string of the exact padded form
`MM/DD/YYYY`, if any (claim wording). -/
def specMDY (s : String) : Option Date :=
  match s.data with
  | [m1, m2, h1, d1, d2, h2, y1, y2, y3, y4] =>
    if ([m1, m2].all Char.isDigit && h1 = '/' && [d1, d2].all Char.isDigit
        && h2 = '/' && [y1, y2, y3, y4].all Char.isDigit) then
      let y := digitsVal [y1, y2, y3, y4]
      let m := digitsVal [m1, m2]
      let d := digitsVal [d1, d2]
      if validDate y m d then some ⟨y, m, d⟩ else none
    else none
  | _ => none

/-- A digit string of length exactly four with value `n`. -/
def YearSeg (n : Nat) (cs : List Char) : Prop :=
  cs.length = 4 ∧ (∀ c ∈ cs, c.isDigit = true) ∧ digitsVal cs = n

/-- A nonempty digit string of length at most `maxLen` with value `n`. -/
def DigitSeg (maxLen : Nat) (n : Nat) (cs : List Char) : Prop :=
  1 ≤ cs.length ∧ cs.length ≤ maxLen ∧ (∀ c ∈ cs, c.isDigit = true) ∧ digitsVal cs = n

/-- Amended-claim format: `Y-M-D` with a four-digit year, one-or-two-digit
month and day, denoting the valid calendar date `dt`. -/
def LenientYMD (s : String) (dt : Date) : Prop :=
  ∃ ys ms ds, s.data = ys ++ '-' :: (ms ++ '-' :: ds)
    ∧ YearSeg dt.year ys ∧ DigitSeg 2 dt.month ms ∧ DigitSeg 2 dt.day ds
    ∧ validDate dt.year dt.month dt.day = true

/-- Amended-claim format: `M/D/Y` with a four-digit year, one-or-two-digit
month and day, denoting the valid calendar date `dt`. -/
def LenientMDY (s : String) (dt : Date) : Prop :=
  ∃ ms ds ys, s.data = ms ++ '/' :: (ds ++ '/' :: ys)
    ∧ YearSeg dt.year ys ∧ DigitSeg 2 dt.month ms ∧ DigitSeg 2 dt.day ds
    ∧ validDate dt.year dt.month dt.day = true

/-! ## Risk tier -/

/-- The keyword list of `_calculate_risk_level`, already lowercase in the
source. -/
def riskKeywords : List String := ["remote", "execution", "bypass", "privilege"]

/-- Python `str.lower()` (ASCII granularity). -/
def strLower (s : String) : String := ⟨s.data.map Char.toLower⟩

/-- Python `needle in hay` on strings: contiguous-substring test. -/
def strContains (hay needle : String) : Bool := decide (needle.data <:+: hay.data)

/-- `_calculate_risk_level`: ransomware-known, then overdue, then keyword,
else MEDIUM. -/
def calculate_risk_level (ransomware_use : String) (is_overdue_flag : Bool) (vuln_name : String) : String :=
  if ransomware_use = "Known" then "CRITICAL"
  else if is_overdue_flag then "HIGH"
  else if riskKeywords.any (fun keyword => strContains (strLower vuln_name) keyword) then "HIGH"
  else "MEDIUM"

/-- The claim's wording for the keyword branch: the name contains,
case-insensitively, one of the four keywords. -/
def SpecKeywordHit (vuln_name : String) : Prop :=
  ∃ k ∈ riskKeywords, (strLower k).data <:+: (strLower vuln_name).data

instance (vuln_name : String) : Decidable (SpecKeywordHit vuln_name) := by
  unfold SpecKeywordHit
  infer_instance

/-! ## Raw entries and the quality score -/

/-- Catalog-level metadata the Fetcher copies onto every entry. -/
structure CatalogMeta where
  catalog_version : String
  date_released : String
  total_count : Int
deriving DecidableEq

/-- A raw feed entry: each field is `some s` when the JSON key is present
(with string value `s`) and `none` when absent, matching `dict.get`. -/
structure RawEntry where
  cveID : Option String
  vendorProject : Option String
  product : Option String
  vulnerabilityName : Option String
  dateAdded : Option String
  shortDescription : Option String
  requiredAction : Option String
  dueDate : Option String
  knownRansomwareCampaignUse : Option String
  notes : Option String
  catalog_metadata : Option CatalogMeta
deriving DecidableEq

/-- Python truthiness of `kev.get(key)`: present and non-empty. -/
def truthy (o : Option String) : Bool :=
  match o with
  | some s => s ≠ ""
  | none => false

/-- Round a rational to two decimal places (Python `round(x, 2)`; the tie
rule is irrelevant for every value this program produces, see the header). -/
def round2 (q : ℚ) : ℚ := (round (q * 100) : ℚ) / 100

/-- `_calculate_kev_quality`: 1/6 credit per present required field, summed
in source order, rounded to two decimals. -/
def calculate_kev_quality (kev : RawEntry) : ℚ :=
  round2 ((0 : ℚ)
    + (if truthy kev.cveID then 1/6 else 0)
    + (if truthy kev.vendorProject then 1/6 else 0)
    + (if truthy kev.product then 1/6 else 0)
    + (if truthy kev.vulnerabilityName then 1/6 else 0)
    + (if truthy kev.shortDescription then 1/6 else 0)
    + (if truthy kev.requiredAction then 1/6 else 0))

/-- Number of the six required fields that are present and non-empty. -/
def requiredPresentCount (kev : RawEntry) : Nat :=
  (if truthy kev.cveID then 1 else 0)
    + (if truthy kev.vendorProject then 1 else 0)
    + (if truthy kev.product then 1 else 0)
    + (if truthy kev.vulnerabilityName then 1 else 0)
    + (if truthy kev.shortDescription then 1 else 0)
    + (if truthy kev.requiredAction then 1 else 0)

/-! ## Time-derived fields

Timestamps are integers, in seconds; a parsed date is the timestamp of its
midnight.  Each helper takes the value `datetime.now()` returned at its own
call site. -/

/-- `_is_recent_addition`: added strictly after now minus 30 days. -/
def is_recent_addition (date_added : Option Int) (now : Int) : Bool :=
  match date_added with
  | none => false
  | some d => decide (now - 30 * 86400 < d)

/-- `_is_overdue`: due date strictly before now. -/
def is_overdue (due_date : Option Int) (now : Int) : Bool :=
  match due_date with
  | none => false
  | some d => decide (d < now)

/-- `_days_since_date`: `(now - d).days`, i.e. floor division by 86400. -/
def days_since_date (date_obj : Option Int) (now : Int) : Option Int :=
  date_obj.map (fun d => Int.fdiv (now - d) 86400)

/-- `_days_until_date`: `(d - now).days`. -/
def days_until_date (date_obj : Option Int) (now : Int) : Option Int :=
  date_obj.map (fun d => Int.fdiv (d - now) 86400)

/-- Day number of a civil date (proleptic Gregorian, epoch 1970-01-01);
the standard era/year-of-era computation with truncating division. -/
def daysFromCivil (y m d : Int) : Int :=
  let yy := y - (if m ≤ 2 then 1 else 0)
  let era := (if 0 ≤ yy then yy else yy - 399) / 400
  let yoe := yy - era * 400
  let doy := (153 * (m + (if 2 < m then -3 else 9)) + 2) / 5 + d - 1
  let doe := yoe * 365 + yoe / 4 - yoe / 100 + doy
  era * 146097 + doe - 719468

/-- Timestamp (seconds) of a parsed date's midnight. -/
def dateToTimestamp (dt : Date) : Int :=
  86400 * daysFromCivil (dt.year : Int) (dt.month : Int) (dt.day : Int)

/-! ## Transform -/

/-- The `etl_metadata` sub-document. -/
structure EtlMetadata where
  ingestion_timestamp : Int
  source : String
  version : String
  record_id : String
  data_quality_score : ℚ
deriving DecidableEq

/-- One enriched document, exactly the dictionary built by
`transform_data`. -/
structure TransformedRecord where
  original_data : RawEntry
  etl_metadata : EtlMetadata
  cve_id : String
  vendor_project : String
  product : String
  vulnerability_name : String
  short_description : String
  required_action : String
  date_added : String
  due_date : String
  date_added_parsed : Option Date
  due_date_parsed : Option Date
  known_ransomware_use : String
  notes : String
  is_recent_addition : Bool
  is_overdue : Bool
  risk_level : String
  description_length : Nat
  has_notes : Bool
  vendor_product_combined : String
  days_since_added : Option Int
  days_until_due : Option Int
  catalog_version : Option String
  catalog_date_released : Option String
  catalog_total_count : Option Int
deriving DecidableEq

/-- The loop body of `transform_data` for one entry; `t1 .. t4` are the
four `datetime.now()` values observed by the call, in call order. -/
def transformRecord (current_timestamp t1 t2 t3 t4 : Int) (kev : RawEntry) : TransformedRecord :=
  let cve_id := kev.cveID.getD "unknown"
  let vendor_project := kev.vendorProject.getD ""
  let product := kev.product.getD ""
  let vulnerability_name := kev.vulnerabilityName.getD ""
  let date_added := kev.dateAdded.getD ""
  let short_description := kev.shortDescription.getD ""
  let required_action := kev.requiredAction.getD ""
  let due_date := kev.dueDate.getD ""
  let known_ransomware := kev.knownRansomwareCampaignUse.getD "Unknown"
  let notes := kev.notes.getD ""
  let date_added_parsed := parse_date date_added
  let due_date_parsed := parse_date due_date
  let is_recent := is_recent_addition (date_added_parsed.map dateToTimestamp) t1
  let overdue := is_overdue (due_date_parsed.map dateToTimestamp) t2
  { original_data := kev
    etl_metadata :=
      { ingestion_timestamp := current_timestamp
        source := "cisa_kev_catalog"
        version := "1.0"
        record_id := cve_id
        data_quality_score := calculate_kev_quality kev }
    cve_id := cve_id
    vendor_project := vendor_project.trim
    product := product.trim
    vulnerability_name := vulnerability_name.trim
    short_description := short_description.trim
    required_action := required_action.trim
    date_added := date_added
    due_date := due_date
    date_added_parsed := date_added_parsed
    due_date_parsed := due_date_parsed
    known_ransomware_use := known_ransomware
    notes := notes.trim
    is_recent_addition := is_recent
    is_overdue := overdue
    risk_level := calculate_risk_level known_ransomware overdue vulnerability_name
    description_length := short_description.length
    has_notes := notes.trim ≠ ""
    vendor_product_combined := (vendor_project ++ " " ++ product).trim
    days_since_added := days_since_date (date_added_parsed.map dateToTimestamp) t3
    days_until_due := days_until_date (due_date_parsed.map dateToTimestamp) t4
    catalog_version := kev.catalog_metadata.map (fun m => m.catalog_version)
    catalog_date_released := kev.catalog_metadata.map (fun m => m.date_released)
    catalog_total_count := kev.catalog_metadata.map (fun m => m.total_count) }

/-- Loop of `transform_data`, threading the index of the next
`datetime.now()` call; record `i` makes calls `4*i .. 4*i+3`.  With the
fields modelled as optional strings the per-entry `try/except` never
fires, so no entry is skipped. -/
def transformAux (current_timestamp : Int) (clock : Nat → Int) (i : Nat) : List RawEntry → List TransformedRecord
  | [] => []
  | kev :: rest =>
    transformRecord current_timestamp
        (clock (4 * i)) (clock (4 * i + 1)) (clock (4 * i + 2)) (clock (4 * i + 3)) kev
      :: transformAux current_timestamp clock (i + 1) rest

/-- `transform_data`: the batch timestamp is captured once, before the
loop; the clock stream supplies every later `datetime.now()` value. -/
def transform_data (current_timestamp : Int) (clock : Nat → Int) (raw_data : List RawEntry) : List TransformedRecord :=
  transformAux current_timestamp clock 0 raw_data

/-! ## Load -/

/-- Outcome fields of `pymongo` `replace_one` that the loader inspects. -/
structure ReplaceOneOutcome where
  matched_count : Nat
  modified_count : Nat
  upserted_id : Option String
deriving DecidableEq

/-- Replace the first document whose `cve_id` equals `k`. -/
def replaceFirst (k : String) (doc : TransformedRecord) : List TransformedRecord → List TransformedRecord
  | [] => []
  | d :: ds => if d.cve_id = k then doc :: ds else d :: replaceFirst k doc ds

/-- `collection.replace_one({'cve_id': k}, doc, upsert=True)` on the
list-of-documents collection model: replace the first match, or append
when none matches.  Per MongoDB semantics, `modified_count` is 0 when the
replacement document equals the stored one. -/
def replace_one (coll : List TransformedRecord) (k : String) (doc : TransformedRecord) :
    List TransformedRecord × ReplaceOneOutcome :=
  match coll.find? (fun d => d.cve_id = k) with
  | some old =>
    (replaceFirst k doc coll, ⟨1, if doc = old then 0 else 1, none⟩)
  | none => (coll ++ [doc], ⟨0, 0, some k⟩)

/-- The per-record loop of `load_data`: `inserted_count` on
`upserted_id`, else `updated_count` on `modified_count > 0`. -/
def loadLoop : List TransformedRecord → List TransformedRecord → Nat → Nat →
    List TransformedRecord × Nat × Nat
  | coll, [], inserted, updated => (coll, inserted, updated)
  | coll, record :: rest, inserted, updated =>
    let step := replace_one coll record.cve_id record
    let inserted' := if step.2.upserted_id.isSome then inserted + 1 else inserted
    let updated' :=
      if step.2.upserted_id.isSome then updated
      else if 0 < step.2.modified_count then updated + 1 else updated
    loadLoop step.1 rest inserted' updated'

/-- Result of `load_data`: the collection afterwards, the two counters,
and the boolean the function returns. -/
structure LoadResult where
  coll : List TransformedRecord
  inserted_count : Nat
  updated_count : Nat
  ok : Bool
deriving DecidableEq

/-- `load_data`: an empty batch returns `True` with no writes; otherwise
index creation (side-effect only) and the upsert loop.  Per-record and
stage-level exceptions have no counterpart in the pure model. -/
def load_data (coll : List TransformedRecord) (transformed_data : List TransformedRecord) : LoadResult :=
  if transformed_data = [] then ⟨coll, 0, 0, true⟩
  else
    let out := loadLoop coll transformed_data 0 0
    ⟨out.1, out.2.1, out.2.2, true⟩

/-- At most one document per identifier: pairwise-distinct `cve_id`s. -/
def idsUnique (coll : List TransformedRecord) : Prop :=
  coll.Pairwise (fun a b => a.cve_id ≠ b.cve_id)

/-! ## Orchestrator and exit code -/

/-- Observable outcome of `run_etl_pipeline`: the returned boolean,
whether `load_data` was reached, and the collection afterwards. -/
structure PipelineResult where
  success : Bool
  loadInvoked : Bool
  finalColl : List TransformedRecord
deriving DecidableEq

/-- `run_etl_pipeline` over the outcome of the connect step, the extracted
list, and the clocks; each guard returns `False` before the next stage. -/
def run_etl_pipeline (connectOk : Bool) (coll : List TransformedRecord)
    (current_timestamp : Int) (clock : Nat → Int) (raw_data : List RawEntry) : PipelineResult :=
  if connectOk = false then ⟨false, false, coll⟩
  else if raw_data = [] then ⟨false, false, coll⟩
  else
    let transformed := transform_data current_timestamp clock raw_data
    if transformed = [] then ⟨false, false, coll⟩
    else
      let lr := load_data coll transformed
      ⟨lr.ok, true, lr.coll⟩

/-- The exit-code mapping in `main`: 0 on success, 1 otherwise. -/
def main_exit_code (pipelineSuccess : Bool) : Nat :=
  if pipelineSuccess then 0 else 1

/-! ## Extract -/

/-- The decoded JSON body as far as `extract_data` reads it. -/
structure Catalog where
  catalogVersion : Option String
  dateReleased : Option String
  count : Option Int
  vulnerabilities : Option (List RawEntry)
deriving DecidableEq

/-- Outcome of one `session.get`: a raised request exception, or a
response with a status code and (if the body decodes) a JSON catalog. -/
inductive HttpOutcome where
  | exn : HttpOutcome
  | resp (status : Nat) (body : Option Catalog) : HttpOutcome
deriving DecidableEq

/-- What `extract_data` did: number of GETs issued, seconds slept (if
any), and the returned list. -/
structure ExtractResult where
  requests : Nat
  slept : Option ℚ
  vulns : List RawEntry
deriving DecidableEq

/-- Attach the catalog metadata to every vulnerability, with the `get`
defaults of the source. -/
def attach_catalog_metadata (cat : Catalog) : List RawEntry :=
  let meta : CatalogMeta :=
    { catalog_version := cat.catalogVersion.getD "unknown"
      date_released := cat.dateReleased.getD "unknown"
      total_count := cat.count.getD 0 }
  (cat.vulnerabilities.getD []).map (fun v => { v with catalog_metadata := some meta })

/-- Processing of the final response: `raise_for_status` raises exactly
for statuses in [400, 600) (caught, yielding `[]`), a body that fails to
decode yields `[]`, and otherwise the vulnerabilities list is returned
with metadata attached. -/
def handle_response (status : Nat) (body : Option Catalog) : List RawEntry :=
  if 400 ≤ status ∧ status < 600 then []
  else
    match body with
    | none => []
    | some cat => attach_catalog_metadata cat

/-- `extract_data` over the outcomes of the at-most-two GETs: a 429 first
response sleeps `rate_limit_delay * 2` and retries once; every failure
path returns the empty list. -/
def extract_data (rate_limit_delay : ℚ) (r1 r2 : HttpOutcome) : ExtractResult :=
  match r1 with
  | .exn => ⟨1, none, []⟩
  | .resp s1 b1 =>
    if s1 = 429 then
      match r2 with
      | .exn => ⟨2, some (rate_limit_delay * 2), []⟩
      | .resp s2 b2 => ⟨2, some (rate_limit_delay * 2), handle_response s2 b2⟩
    else ⟨1, none, handle_response s1 b1⟩

/-! ## Concrete example values -/

/-- The spec's end-to-end example entry. -/
def rawEx : RawEntry :=
  { cveID := some "CVE-2024-0001"
    vendorProject := some "Acme"
    product := some "Gadget"
    vulnerabilityName := some "Remote Code Execution"
    dateAdded := some "2024-01-01"
    shortDescription := some "desc"
    requiredAction := some "patch"
    dueDate := some "2024-01-15"
    knownRansomwareCampaignUse := some "Unknown"
    notes := none
    catalog_metadata := none }

/-- The example entry with its `cveID` key absent. -/
def rawNoId : RawEntry := { rawEx with cveID := none }

/-- The example entry with its `cveID` key present but empty. -/
def rawEmptyId : RawEntry := { rawEx with cveID := some "" }

/-- A concrete decoded catalog body. -/
def catEx : Catalog :=
  { catalogVersion := some "2024.1"
    dateReleased := some "2024-01-20"
    count := some 1
    vulnerabilities := some [rawEx] }

/-- A concrete enriched document (all clocks at 0). -/
def recEx : TransformedRecord := transformRecord 0 0 0 0 0 rawEx

/-- The same document re-transformed at a different batch timestamp:
same `cve_id`, different content. -/
def recEx' : TransformedRecord := transformRecord 1 0 0 0 0 rawEx

/-- A concrete enriched document with identifier "unknown". -/
def recUnknown : TransformedRecord := transformRecord 0 0 0 0 0 rawNoId

/-! ## Theorems -/

/-! ### Risk tier (C1) -/

theorem strLower_keyword_fixed : ∀ k ∈ riskKeywords, strLower k = k := by decide

theorem keyword_hit_iff (vuln_name : String) :
    (riskKeywords.any (fun keyword => strContains (strLower vuln_name) keyword)) = true
      ↔ SpecKeywordHit vuln_name := by
  rw [List.any_eq_true]
  unfold SpecKeywordHit
  constructor
  · rintro ⟨k, hk, hc⟩
    exact ⟨k, hk, by rw [strLower_keyword_fixed k hk]; simpa [strContains] using hc⟩
  · rintro ⟨k, hk, hc⟩
    rw [strLower_keyword_fixed k hk] at hc
    exact ⟨k, hk, by simpa [strContains] using hc⟩

/-- Claim C1: the risk tier follows the stated precedence with first match
winning: ransomware-use "Known" gives CRITICAL regardless of the other
inputs; otherwise overdue gives HIGH; otherwise a case-insensitive name
keyword among remote/execution/bypass/privilege gives HIGH; otherwise
MEDIUM. -/
theorem c1_risk_tier_precedence :
    ∀ (ransomware_use : String) (overdue : Bool) (vuln_name : String),
    (ransomware_use = "Known" →
      calculate_risk_level ransomware_use overdue vuln_name = "CRITICAL")
    ∧ (ransomware_use ≠ "Known" → overdue = true →
      calculate_risk_level ransomware_use overdue vuln_name = "HIGH")
    ∧ (ransomware_use ≠ "Known" → overdue = false → SpecKeywordHit vuln_name →
      calculate_risk_level ransomware_use overdue vuln_name = "HIGH")
    ∧ (ransomware_use ≠ "Known" → overdue = false → ¬ SpecKeywordHit vuln_name →
      calculate_risk_level ransomware_use overdue vuln_name = "MEDIUM") := by
  intro ru od name
  refine ⟨fun h => by simp [calculate_risk_level, h],
    fun h ho => by simp [calculate_risk_level, h, ho],
    fun h ho hk => by simp [calculate_risk_level, h, ho, (keyword_hit_iff name).mpr hk],
    fun h ho hk => ?_⟩
  have hb : (riskKeywords.any (fun keyword => strContains (strLower name) keyword)) = false := by
    cases hany : riskKeywords.any (fun keyword => strContains (strLower name) keyword)
    · rfl
    · exact absurd ((keyword_hit_iff name).mp hany) hk
  simp [calculate_risk_level, h, ho, hb]

theorem c1_witness :
    calculate_risk_level "Known" true "x" = "CRITICAL"
    ∧ calculate_risk_level "Unknown" true "x" = "HIGH"
    ∧ calculate_risk_level "Unknown" false "Remote Code Execution" = "HIGH"
    ∧ calculate_risk_level "Unknown" false "Heap Overflow" = "MEDIUM" :=
  ⟨(c1_risk_tier_precedence "Known" true "x").1 rfl,
    (c1_risk_tier_precedence "Unknown" true "x").2.1 (by decide) rfl,
    (c1_risk_tier_precedence "Unknown" false "Remote Code Execution").2.2.1 (by decide) rfl
      ⟨"remote", by decide, by decide⟩,
    (c1_risk_tier_precedence "Unknown" false "Heap Overflow").2.2.2 (by decide) rfl (by decide)⟩

/-! ### Quality score (C3) -/

theorem round2_mono {a b : ℚ} (h : a ≤ b) : round2 a ≤ round2 b := by
  unfold round2
  rw [round_eq, round_eq]
  have h100 : a * 100 + 1 / 2 ≤ b * 100 + 1 / 2 := by linarith
  have := Int.floor_mono h100
  rw [div_le_div_iff_of_pos_right (by norm_num : (0:ℚ) < 100)]
  exact_mod_cast this

theorem quality_eq_round_count (kev : RawEntry) :
    calculate_kev_quality kev = round2 ((requiredPresentCount kev : ℚ) / 6) := by
  unfold calculate_kev_quality requiredPresentCount
  cases truthy kev.cveID <;> cases truthy kev.vendorProject <;> cases truthy kev.product
    <;> cases truthy kev.vulnerabilityName <;> cases truthy kev.shortDescription
    <;> cases truthy kev.requiredAction
    <;> simp only [if_true, if_false, Bool.false_eq_true, Bool.true_eq_false, ite_true, ite_false]
    <;> congr 1 <;> push_cast <;> norm_num

theorem requiredPresentCount_le_six (kev : RawEntry) : requiredPresentCount kev ≤ 6 := by
  unfold requiredPresentCount
  cases truthy kev.cveID <;> cases truthy kev.vendorProject <;> cases truthy kev.product
    <;> cases truthy kev.vulnerabilityName <;> cases truthy kev.shortDescription
    <;> cases truthy kev.requiredAction <;> simp

/-- Claim C3: the quality score equals the count of present required
fields times 1/6 rounded to two decimals, lies in [0, 1], and is
monotonically non-decreasing in the number of present required fields. -/
theorem c3_quality_score :
    (∀ kev : RawEntry,
      calculate_kev_quality kev = round2 ((requiredPresentCount kev : ℚ) / 6))
    ∧ (∀ kev : RawEntry,
      0 ≤ calculate_kev_quality kev ∧ calculate_kev_quality kev ≤ 1)
    ∧ (∀ k1 k2 : RawEntry, requiredPresentCount k1 ≤ requiredPresentCount k2 →
      calculate_kev_quality k1 ≤ calculate_kev_quality k2) := by
  have hzero : round2 0 = 0 := by norm_num [round2]
  have hone : round2 1 = 1 := by norm_num [round2, round_eq]
  refine ⟨quality_eq_round_count, fun kev => ⟨?_, ?_⟩, fun k1 k2 h => ?_⟩
  · rw [quality_eq_round_count, ← hzero]
    exact round2_mono (by positivity)
  · rw [quality_eq_round_count, ← hone]
    refine round2_mono ?_
    rw [div_le_one (by norm_num : (0:ℚ) < 6)]
    exact_mod_cast requiredPresentCount_le_six kev
  · rw [quality_eq_round_count, quality_eq_round_count]
    refine round2_mono ?_
    have : (requiredPresentCount k1 : ℚ) ≤ (requiredPresentCount k2 : ℚ) := by exact_mod_cast h
    linarith

theorem c3_witness : calculate_kev_quality rawNoId ≤ calculate_kev_quality rawEx :=
  c3_quality_score.2.2 rawNoId rawEx (by decide)

/-! ### Recency and overdue derivations (C4) -/

/-- Claim C4: the recent flag is true iff the parsed add-date is strictly
after now minus 30 days; the overdue flag is true iff the parsed due-date
is strictly before now; both are false when the date failed to parse. -/
theorem c4_recent_overdue :
    ∀ (added due : Option Int) (now : Int),
    (is_recent_addition added now = true ↔ ∃ d, added = some d ∧ now - 30 * 86400 < d)
    ∧ (is_overdue due now = true ↔ ∃ d, due = some d ∧ d < now)
    ∧ is_recent_addition none now = false ∧ is_overdue none now = false := by
  intro added due now
  refine ⟨?_, ?_, rfl, rfl⟩
  · cases added <;> simp [is_recent_addition]
  · cases due <;> simp [is_overdue]

/-! ### Pipeline halts on empty results (C7) -/

/-- Claim C7: when the fetch stage returns no vulnerabilities, or the
transform stage yields no records, the pipeline stops with failure before
the load stage: no write happens and the process exit code is 1. -/
theorem c7_empty_halts :
    ∀ (connectOk : Bool) (coll : List TransformedRecord) (ct : Int)
      (clock : Nat → Int) (raw : List RawEntry),
    raw = [] ∨ transform_data ct clock raw = [] →
    run_etl_pipeline connectOk coll ct clock raw = ⟨false, false, coll⟩
    ∧ main_exit_code (run_etl_pipeline connectOk coll ct clock raw).success = 1 := by
  intro c coll ct clock raw h
  have hrun : run_etl_pipeline c coll ct clock raw = ⟨false, false, coll⟩ := by
    cases c
    · simp [run_etl_pipeline]
    · rcases h with h | h
      · simp [run_etl_pipeline, h]
      · by_cases hr : raw = []
        · simp [run_etl_pipeline, hr]
        · simp [run_etl_pipeline, hr, h]
  exact ⟨hrun, by rw [hrun]; rfl⟩

theorem c7_witness :
    run_etl_pipeline true [] 0 (fun _ => 0) [] = ⟨false, false, []⟩
    ∧ main_exit_code (run_etl_pipeline true [] 0 (fun _ => 0) []).success = 1 :=
  c7_empty_halts true [] 0 (fun _ => 0) [] (Or.inl rfl)

/-! ### Load-stage lemmas (shared by C5, C6, C10) -/

theorem mem_replaceFirst {b : TransformedRecord} (k : String) (doc : TransformedRecord) :
    ∀ coll, b ∈ replaceFirst k doc coll → b = doc ∨ b ∈ coll := by
  intro coll
  induction coll with
  | nil => intro h; simp [replaceFirst] at h
  | cons d ds ih =>
    intro h
    by_cases hd : d.cve_id = k
    · simp only [replaceFirst, if_pos hd] at h
      rcases List.mem_cons.mp h with h | h
      · exact Or.inl h
      · exact Or.inr (List.mem_cons_of_mem _ h)
    · simp only [replaceFirst, if_neg hd] at h
      rcases List.mem_cons.mp h with h | h
      · exact Or.inr (h ▸ List.mem_cons_self _ _)
      · rcases ih h with h | h
        · exact Or.inl h
        · exact Or.inr (List.mem_cons_of_mem _ h)

theorem replaceFirst_id_mem (k : String) (doc : TransformedRecord) (hdoc : doc.cve_id = k) :
    ∀ (coll : List TransformedRecord) (k' : String),
    (∃ d ∈ replaceFirst k doc coll, d.cve_id = k') ↔ ∃ d ∈ coll, d.cve_id = k' := by
  intro coll
  induction coll with
  | nil => intro k'; simp [replaceFirst]
  | cons d ds ih =>
    intro k'
    by_cases hd : d.cve_id = k
    · simp only [replaceFirst, if_pos hd]
      constructor
      · rintro ⟨x, hx, hid⟩
        rcases List.mem_cons.mp hx with h | h
        · exact ⟨d, List.mem_cons_self _ _, by rw [hd, ← hdoc, ← h, hid]⟩
        · exact ⟨x, List.mem_cons_of_mem _ h, hid⟩
      · rintro ⟨x, hx, hid⟩
        rcases List.mem_cons.mp hx with h | h
        · exact ⟨doc, List.mem_cons_self _ _, by rw [hdoc, ← hd, ← h, hid]⟩
        · exact ⟨x, List.mem_cons_of_mem _ h, hid⟩
    · simp only [replaceFirst, if_neg hd]
      constructor
      · rintro ⟨x, hx, hid⟩
        rcases List.mem_cons.mp hx with h | h
        · exact ⟨d, List.mem_cons_self _ _, h ▸ hid⟩
        · rcases (ih k').mp ⟨x, h, hid⟩ with ⟨y, hy, hyid⟩
          exact ⟨y, List.mem_cons_of_mem _ hy, hyid⟩
      · rintro ⟨x, hx, hid⟩
        rcases List.mem_cons.mp hx with h | h
        · exact ⟨d, List.mem_cons_self _ _, h ▸ hid⟩
        · rcases (ih k').mpr ⟨x, h, hid⟩ with ⟨y, hy, hyid⟩
          exact ⟨y, List.mem_cons_of_mem _ hy, hyid⟩

theorem replaceFirst_unique (k : String) (doc : TransformedRecord) (hdoc : doc.cve_id = k) :
    ∀ coll, idsUnique coll → idsUnique (replaceFirst k doc coll) := by
  intro coll
  induction coll with
  | nil => intro h; simpa [replaceFirst] using h
  | cons d ds ih =>
    intro h
    rcases List.pairwise_cons.mp h with ⟨hhead, htail⟩
    by_cases hd : d.cve_id = k
    · simp only [replaceFirst, if_pos hd]
      exact List.pairwise_cons.mpr ⟨fun b hb => by rw [hdoc, ← hd]; exact hhead b hb, htail⟩
    · simp only [replaceFirst, if_neg hd]
      refine List.pairwise_cons.mpr ⟨fun b hb => ?_, ih htail⟩
      rcases mem_replaceFirst k doc ds hb with h | h
      · rw [h, hdoc]; exact hd
      · exact hhead b h

theorem replace_one_unique (coll : List TransformedRecord) (k : String) (doc : TransformedRecord)
    (hdoc : doc.cve_id = k) (h : idsUnique coll) : idsUnique (replace_one coll k doc).1 := by
  unfold replace_one
  cases hf : coll.find? (fun d => d.cve_id = k) with
  | some old => exact replaceFirst_unique k doc hdoc coll h
  | none =>
    have hnone : ∀ x ∈ coll, x.cve_id ≠ k := by
      intro x hx
      have := List.find?_eq_none.mp hf x hx
      simpa using this
    unfold idsUnique
    rw [List.pairwise_append]
    exact ⟨h, List.pairwise_singleton _ _, fun a ha b hb => by
      rw [List.mem_singleton.mp hb, hdoc]; exact hnone a ha⟩

theorem loadLoop_unique :
    ∀ (batch coll : List TransformedRecord) (inserted updated : Nat),
    idsUnique coll → idsUnique (loadLoop coll batch inserted updated).1 := by
  intro batch
  induction batch with
  | nil => intro coll i u h; simpa [loadLoop] using h
  | cons r rest ih =>
    intro coll i u h
    simp only [loadLoop]
    exact ih _ _ _ (replace_one_unique coll r.cve_id r rfl h)

theorem load_data_unique (coll batch : List TransformedRecord) (h : idsUnique coll) :
    idsUnique (load_data coll batch).coll := by
  unfold load_data
  by_cases hb : batch = []
  · simpa [hb] using h
  · simpa [hb] using loadLoop_unique batch coll 0 0 h

theorem countP_le_one_of_unique :
    ∀ (coll : List TransformedRecord), idsUnique coll →
    ∀ k : String, coll.countP (fun d => d.cve_id = k) ≤ 1 := by
  intro coll
  induction coll with
  | nil => intro _ k; simp
  | cons d ds ih =>
    intro h k
    rcases List.pairwise_cons.mp h with ⟨hhead, htail⟩
    rw [List.countP_cons]
    by_cases hd : d.cve_id = k
    · have hzero : ds.countP (fun x => x.cve_id = k) = 0 := by
        rw [List.countP_eq_zero]
        intro x hx
        have : d.cve_id ≠ x.cve_id := hhead x hx
        simp only [decide_eq_true_eq]
        rw [← hd]
        exact fun hk => this hk.symm
      simp [hzero, hd]
    · simp [hd, ih htail k]

/-! ### Uniqueness invariant of the collection (C5) -/

/-- Claim C5: starting from a collection with at most one document per
identifier, any load keeps it so — a record whose identifier is present
replaces the prior document and a new identifier is inserted, so repeated
runs never create duplicates. -/
theorem c5_upsert_uniqueness :
    ∀ (coll batch : List TransformedRecord), idsUnique coll →
    idsUnique (load_data coll batch).coll := by
  intro coll batch h
  exact load_data_unique coll batch h

theorem c5_witness : idsUnique (load_data [] [recEx, recEx']).coll :=
  c5_upsert_uniqueness [] [recEx, recEx'] (by simp [idsUnique])

/-! ### Updated counter and unchanged replacements (C6) -/

theorem c6_counterexample :
    (∀ r ∈ [recEx], ∃ d ∈ [recEx], d.cve_id = r.cve_id)
    ∧ (load_data [recEx] [recEx]).inserted_count = 0
    ∧ (load_data [recEx] [recEx]).updated_count = 0 := by
  have hf : List.find? (fun x => decide (x.cve_id = recEx.cve_id)) [recEx] = some recEx :=
    List.find?_cons_of_pos _ (by simp)
  have hro : replace_one [recEx] recEx.cve_id recEx
      = (replaceFirst recEx.cve_id recEx [recEx], ⟨1, if recEx = recEx then 0 else 1, none⟩) := by
    unfold replace_one
    rw [hf]
  refine ⟨by simp, ?_, ?_⟩ <;> simp [load_data, loadLoop, hro]

theorem loadLoop_inserted_zero :
    ∀ (batch coll : List TransformedRecord) (inserted updated : Nat),
    (∀ r ∈ batch, ∃ d ∈ coll, d.cve_id = r.cve_id) →
    (loadLoop coll batch inserted updated).2.1 = inserted := by
  intro batch
  induction batch with
  | nil => intro coll i u _; rfl
  | cons r rest ih =>
    intro coll i u h
    rcases h r (List.mem_cons_self _ _) with ⟨d, hd, hdid⟩
    cases hf : coll.find? (fun x => x.cve_id = r.cve_id) with
    | none =>
      exact absurd hdid (by simpa using List.find?_eq_none.mp hf d hd)
    | some old =>
      simp only [loadLoop, replace_one, hf, Option.isSome_none, Bool.false_eq_true,
        if_false, ite_false]
      refine ih _ _ _ ?_
      intro r' hr'
      exact (replaceFirst_id_mem r.cve_id r rfl coll r'.cve_id).mpr
        (h r' (List.mem_cons_of_mem _ hr'))

/-- Claim C6 amended: when every identifier in the batch already exists in
the collection nothing is counted as inserted, but a record is counted as
updated only when the replacing document differs from the stored one —
replacing a document with identical content counts as neither inserted nor
updated, because the loader tests `modified_count`, which MongoDB reports
as zero for a no-op replacement. -/
theorem c6_updated_counts_changes_only :
    (∀ (coll batch : List TransformedRecord),
      (∀ r ∈ batch, ∃ d ∈ coll, d.cve_id = r.cve_id) →
      (load_data coll batch).inserted_count = 0)
    ∧ (∀ (coll : List TransformedRecord) (r d : TransformedRecord),
      coll.find? (fun x => x.cve_id = r.cve_id) = some d →
      (load_data coll [r]).inserted_count = 0
      ∧ (load_data coll [r]).updated_count = (if r = d then 0 else 1)) := by
  constructor
  · intro coll batch h
    unfold load_data
    by_cases hb : batch = []
    · simp [hb]
    · simpa [hb] using loadLoop_inserted_zero batch coll 0 0 h
  · intro coll r d hf
    have hro : replace_one coll r.cve_id r
        = (replaceFirst r.cve_id r coll, ⟨1, if r = d then 0 else 1, none⟩) := by
      unfold replace_one
      rw [hf]
    by_cases hrd : r = d
    · subst hrd
      simp [load_data, loadLoop, hro]
    · simp [load_data, loadLoop, hro, hrd]

theorem c6_witness :
    (load_data [recEx] [recEx']).inserted_count = 0
    ∧ (load_data [recEx] [recEx']).updated_count = (if recEx' = recEx then 0 else 1) :=
  c6_updated_counts_changes_only.2 [recEx] recEx' recEx (List.find?_cons_of_pos _ (by decide))

/-! ### Batch ingestion timestamp vs per-record clock (C9) -/

theorem transformAux_ingestion :
    ∀ (ct : Int) (clock : Nat → Int) (i : Nat) (raws : List RawEntry) (r : TransformedRecord),
    r ∈ transformAux ct clock i raws → r.etl_metadata.ingestion_timestamp = ct := by
  intro ct clock i raws
  induction raws generalizing i with
  | nil => intro r hr; simp [transformAux] at hr
  | cons a rest ih =>
    intro r hr
    rcases List.mem_cons.mp hr with h | h
    · rw [h]
      rfl
    · exact ih (i + 1) r h

/-- Claim C9: every record of one transform batch carries the ingestion
timestamp captured once at the start of the batch, while the four derived
fields follow the per-record `datetime.now()` calls: with the batch
timestamp held fixed, changing only the clock stream changes
`is_recent_addition`, `is_overdue`, `days_since_added` and
`days_until_due`. -/
theorem c9_batch_timestamp_vs_clock :
    (∀ (ct : Int) (clock : Nat → Int) (raws : List RawEntry) (r : TransformedRecord),
      r ∈ transform_data ct clock raws → r.etl_metadata.ingestion_timestamp = ct)
    ∧ ((transform_data 0 (fun _ => 1708732800) [rawEx]).map (fun r => r.is_recent_addition) = [false]
      ∧ (transform_data 0 (fun _ => 1705276799) [rawEx]).map (fun r => r.is_recent_addition) = [true])
    ∧ ((transform_data 0 (fun _ => 1708732800) [rawEx]).map (fun r => r.is_overdue) = [true]
      ∧ (transform_data 0 (fun _ => 1705276799) [rawEx]).map (fun r => r.is_overdue) = [false])
    ∧ ((transform_data 0 (fun _ => 1708732800) [rawEx]).map (fun r => r.days_since_added) = [some 54]
      ∧ (transform_data 0 (fun _ => 1705276799) [rawEx]).map (fun r => r.days_since_added) = [some 13])
    ∧ ((transform_data 0 (fun _ => 1708732800) [rawEx]).map (fun r => r.days_until_due) = [some (-40)]
      ∧ (transform_data 0 (fun _ => 1705276799) [rawEx]).map (fun r => r.days_until_due) = [some 0]) :=
  ⟨fun ct clock raws r hr => transformAux_ingestion ct clock 0 raws r hr,
    ⟨by rfl, by rfl⟩, ⟨by rfl, by rfl⟩, ⟨by rfl, by rfl⟩, ⟨by rfl, by rfl⟩⟩

/-! ### Missing and empty identifiers (C10) -/

theorem c10_counterexample :
    (transform_data 0 (fun _ => 0) [rawEmptyId]).map (fun r => r.cve_id) = [""]
    ∧ ("" : String) ≠ "unknown" :=
  ⟨by rfl, by decide⟩

theorem transformAux_length :
    ∀ (ct : Int) (clock : Nat → Int) (i : Nat) (raws : List RawEntry),
    (transformAux ct clock i raws).length = raws.length := by
  intro ct clock i raws
  induction raws generalizing i with
  | nil => rfl
  | cons a rest ih => simp [transformAux, ih]

/-- Claim C10 amended: no raw entry is skipped by the transform; an entry
whose identifier key is absent is emitted with the literal identifier
"unknown", while an entry whose identifier is present but empty keeps the
empty string (the `get` default applies only to a missing key).  Because
the load upserts on the identifier, the collection holds at most one
document per resulting identifier, so all entries sharing one collapse
into a single stored document. -/
theorem c10_unknown_id_amended :
    (∀ (ct : Int) (clock : Nat → Int) (raws : List RawEntry),
      (transform_data ct clock raws).length = raws.length)
    ∧ (∀ (ct t1 t2 t3 t4 : Int) (kev : RawEntry), kev.cveID = none →
      (transformRecord ct t1 t2 t3 t4 kev).cve_id = "unknown")
    ∧ (∀ (coll batch : List TransformedRecord) (k : String), idsUnique coll →
      (load_data coll batch).coll.countP (fun d => d.cve_id = k) ≤ 1) :=
  ⟨fun ct clock raws => transformAux_length ct clock 0 raws,
    fun ct t1 t2 t3 t4 kev h => by simp [transformRecord, h],
    fun coll batch k h => countP_le_one_of_unique _ (load_data_unique coll batch h) k⟩

theorem c10_witness :
    (transformRecord 0 0 0 0 0 rawNoId).cve_id = "unknown"
    ∧ (load_data [] [recUnknown]).coll.countP (fun d => d.cve_id = "unknown") ≤ 1 :=
  ⟨c10_unknown_id_amended.2.1 0 0 0 0 0 rawNoId rfl,
    c10_unknown_id_amended.2.2 [] [recUnknown] "unknown" (by simp [idsUnique])⟩

/-! ### Fetcher retry and failure handling (C8) -/

theorem c8_counterexample :
    (extract_data 2 (HttpOutcome.resp 429 none) (HttpOutcome.resp 304 (some catEx))).requests = 2
    ∧ ¬ (200 ≤ 304 ∧ 304 ≤ 299)
    ∧ (extract_data 2 (HttpOutcome.resp 429 none) (HttpOutcome.resp 304 (some catEx))).vulns ≠ [] := by
  refine ⟨rfl, by decide, by simp [extract_data, handle_response, attach_catalog_metadata, catEx]⟩

/-- Claim C8 amended: the fetcher performs at most two GETs; a 429 first
response sleeps twice the configured delay and retries exactly once, and
nothing else triggers a retry or a sleep.  A raised request exception, an
undecodable body, or a final status in the 4xx/5xx range yields the empty
list; but `raise_for_status` only raises for statuses in [400, 600), so a
non-2xx status outside that range (e.g. 304) with a decodable body is
processed as a success. -/
theorem c8_fetch_retry_amended :
    ∀ (delay : ℚ) (r1 r2 : HttpOutcome),
    (extract_data delay r1 r2).requests ≤ 2
    ∧ (∀ b, r1 = HttpOutcome.resp 429 b →
      (extract_data delay r1 r2).requests = 2
      ∧ (extract_data delay r1 r2).slept = some (delay * 2))
    ∧ (∀ s b, r1 = HttpOutcome.resp s b → s ≠ 429 →
      (extract_data delay r1 r2).requests = 1
      ∧ (extract_data delay r1 r2).slept = none
      ∧ (extract_data delay r1 r2).vulns = handle_response s b)
    ∧ (r1 = HttpOutcome.exn → (extract_data delay r1 r2).vulns = [])
    ∧ (∀ b, r1 = HttpOutcome.resp 429 b → r2 = HttpOutcome.exn →
      (extract_data delay r1 r2).vulns = [])
    ∧ (∀ b s2 b2, r1 = HttpOutcome.resp 429 b → r2 = HttpOutcome.resp s2 b2 →
      (extract_data delay r1 r2).vulns = handle_response s2 b2)
    ∧ (∀ s b, 400 ≤ s → s < 600 → handle_response s b = [])
    ∧ (∀ s, ¬ (400 ≤ s ∧ s < 600) → handle_response s none = [])
    ∧ (∀ s cat, ¬ (400 ≤ s ∧ s < 600) →
      handle_response s (some cat) = attach_catalog_metadata cat) := by
  intro delay r1 r2
  refine ⟨?_, ?_, ?_, ?_, ?_, ?_, ?_, ?_, ?_⟩
  · cases r1 with
    | exn => simp [extract_data]
    | resp s b =>
      by_cases h : s = 429
      · cases r2 <;> simp [extract_data, h]
      · simp [extract_data, h]
  · rintro b rfl
    cases r2 <;> simp [extract_data]
  · rintro s b rfl hs
    simp [extract_data, hs]
  · rintro rfl
    rfl
  · rintro b rfl rfl
    rfl
  · rintro b s2 b2 rfl rfl
    simp [extract_data]
  · intro s b h1 h2
    simp [handle_response, h1, h2]
  · intro s h
    simp [handle_response, h]
  · intro s cat h
    simp [handle_response, h]

theorem c8_witness :
    (extract_data 2 (HttpOutcome.resp 429 none) HttpOutcome.exn).requests = 2
    ∧ (extract_data 2 (HttpOutcome.resp 429 none) HttpOutcome.exn).slept = some (2 * 2) :=
  (c8_fetch_retry_amended 2 (HttpOutcome.resp 429 none) HttpOutcome.exn).2.1 none rfl

/-! ### Date-parser characterization lemmas (C2) -/

theorem splitOnChar_ne_nil (sep : Char) : ∀ cs : List Char, splitOnChar sep cs ≠ [] := by
  intro cs
  cases cs with
  | nil => simp [splitOnChar]
  | cons c rest =>
    unfold splitOnChar
    cases h : splitOnChar sep rest with
    | nil => simp
    | cons g gs =>
      by_cases hc : c = sep <;> simp [hc]

theorem splitOnChar_cons_ne (sep c : Char) (rest : List Char) (hc : c ≠ sep)
    (g : List Char) (gs : List (List Char)) (h : splitOnChar sep rest = g :: gs) :
    splitOnChar sep (c :: rest) = (c :: g) :: gs := by
  unfold splitOnChar
  rw [h]
  simp [hc]

theorem splitOnChar_sep_cons (sep : Char) (cs : List Char) :
    splitOnChar sep (sep :: cs) = [] :: splitOnChar sep cs := by
  cases h : splitOnChar sep cs with
  | nil => exact absurd h (splitOnChar_ne_nil sep cs)
  | cons g gs => simp [splitOnChar, h]

theorem joinWithSep_cons_cons (sep c : Char) (g : List Char) (gs : List (List Char)) :
    joinWithSep sep ((c :: g) :: gs) = c :: joinWithSep sep (g :: gs) := by
  cases gs <;> simp [joinWithSep]

theorem splitOnChar_inv (sep : Char) :
    ∀ cs : List Char,
    joinWithSep sep (splitOnChar sep cs) = cs
    ∧ ∀ p ∈ splitOnChar sep cs, sep ∉ p := by
  intro cs
  induction cs with
  | nil => exact ⟨rfl, by simp [splitOnChar]⟩
  | cons c rest ih =>
    obtain ⟨ihj, ihm⟩ := ih
    cases h : splitOnChar sep rest with
    | nil => exact absurd h (splitOnChar_ne_nil sep rest)
    | cons g gs =>
      rw [h] at ihj ihm
      by_cases hc : c = sep
      · subst hc
        rw [splitOnChar_sep_cons, h]
        constructor
        · simp only [joinWithSep, List.nil_append]
          rw [ihj]
        · intro p hp
          rcases List.mem_cons.mp hp with hp | hp
          · simp [hp]
          · exact ihm p hp
      · rw [splitOnChar_cons_ne sep c rest hc g gs h]
        constructor
        · rw [joinWithSep_cons_cons, ihj]
        · intro p hp
          rcases List.mem_cons.mp hp with hp | hp
          · rw [hp]
            intro hmem
            rcases List.mem_cons.mp hmem with hm | hm
            · exact hc hm.symm
            · exact ihm g (List.mem_cons_self _ _) hm
          · exact ihm p (List.mem_cons_of_mem _ hp)

theorem splitOnChar_prepend (sep : Char) :
    ∀ (a cs : List Char) (g : List Char) (gs : List (List Char)),
    sep ∉ a → splitOnChar sep cs = g :: gs →
    splitOnChar sep (a ++ cs) = (a ++ g) :: gs := by
  intro a
  induction a with
  | nil => intro cs g gs _ h; simpa using h
  | cons c a' ih =>
    intro cs g gs ha h
    have hc : c ≠ sep := fun he => ha (he ▸ List.mem_cons_self _ _)
    have ha' : sep ∉ a' := fun hm => ha (List.mem_cons_of_mem _ hm)
    have hrec := ih cs g gs ha' h
    show splitOnChar sep (c :: (a' ++ cs)) = (c :: (a' ++ g)) :: gs
    exact splitOnChar_cons_ne sep c (a' ++ cs) hc (a' ++ g) gs hrec

theorem splitOnChar_no_sep (sep : Char) (a : List Char) (ha : sep ∉ a) :
    splitOnChar sep a = [a] := by
  have := splitOnChar_prepend sep a [] [] [] ha (by simp [splitOnChar])
  simpa using this

theorem splitOnChar_three (sep : Char) (a b c : List Char)
    (ha : sep ∉ a) (hb : sep ∉ b) (hc : sep ∉ c) :
    splitOnChar sep (a ++ sep :: (b ++ sep :: c)) = [a, b, c] := by
  have h3 : splitOnChar sep c = [c] := splitOnChar_no_sep sep c hc
  have h2 : splitOnChar sep (sep :: c) = [] :: [c] := by rw [splitOnChar_sep_cons, h3]
  have h2' : splitOnChar sep (b ++ sep :: c) = [b, c] := by
    have := splitOnChar_prepend sep b (sep :: c) [] [c] hb h2
    simpa using this
  have h1 : splitOnChar sep (sep :: (b ++ sep :: c)) = [] :: [b, c] := by
    rw [splitOnChar_sep_cons, h2']
  have := splitOnChar_prepend sep a (sep :: (b ++ sep :: c)) [] [b, c] ha h1
  simpa using this

theorem parse3_eq_some_iff (sep : Char) (s : String) (a b c : List Char) :
    parse3 sep s = some (a, b, c)
      ↔ (s.data = a ++ sep :: (b ++ sep :: c) ∧ sep ∉ a ∧ sep ∉ b ∧ sep ∉ c) := by
  constructor
  · intro h
    have hsplit : splitOnChar sep s.data = [a, b, c] := by
      rcases hs : splitOnChar sep s.data with _ | ⟨x, _ | ⟨y, _ | ⟨z, _ | _⟩⟩⟩ <;>
        simp [parse3, hs] at h
      obtain ⟨hx, hy, hz⟩ := h
      rw [hx, hy, hz]
    obtain ⟨hj, hm⟩ := splitOnChar_inv sep s.data
    rw [hsplit] at hj hm
    refine ⟨?_, hm a (by simp), hm b (by simp), hm c (by simp)⟩
    rw [← hj]
    simp [joinWithSep]
  · rintro ⟨hdecomp, ha, hb, hc⟩
    simp [parse3, hdecomp, splitOnChar_three sep a b c ha hb hc]

theorem char_digit_toNat {c : Char} (h : c.isDigit = true) :
    48 ≤ c.toNat ∧ c.toNat ≤ 57 := by
  simp [Char.isDigit] at h
  obtain ⟨h1, h2⟩ := h
  rw [UInt32.le_def, BitVec.le_def] at h1 h2
  simp at h1 h2
  unfold Char.toNat UInt32.toNat
  omega

theorem digitVal_le_nine {c : Char} (h : c.isDigit = true) : digitVal c ≤ 9 := by
  have := char_digit_toNat h
  unfold digitVal
  omega

theorem sep_not_mem_digits {sep : Char} (hsep : sep.isDigit = false)
    {cs : List Char} (h : ∀ c ∈ cs, c.isDigit = true) : sep ∉ cs := by
  intro hm
  rw [h sep hm] at hsep
  cases hsep

theorem digitsVal_foldl_lt :
    ∀ (cs : List Char) (a : Nat), (∀ c ∈ cs, c.isDigit = true) →
    List.foldl (fun x c => x * 10 + digitVal c) a cs < (a + 1) * 10 ^ cs.length := by
  intro cs
  induction cs with
  | nil => intro a _; simp
  | cons c rest ih =>
    intro a h
    have hd : digitVal c ≤ 9 := digitVal_le_nine (h c (List.mem_cons_self _ _))
    have hrec := ih (a * 10 + digitVal c) (fun x hx => h x (List.mem_cons_of_mem _ hx))
    have hstep : (a * 10 + digitVal c + 1) * 10 ^ rest.length ≤ (a + 1) * 10 ^ (rest.length + 1) := by
      have hb : a * 10 + digitVal c + 1 ≤ (a + 1) * 10 := by omega
      calc (a * 10 + digitVal c + 1) * 10 ^ rest.length
          ≤ ((a + 1) * 10) * 10 ^ rest.length := Nat.mul_le_mul_right _ hb
        _ = (a + 1) * 10 ^ (rest.length + 1) := by ring
    simp only [List.foldl_cons, List.length_cons]
    exact lt_of_lt_of_le hrec hstep

theorem digitsVal_lt (cs : List Char) (h : ∀ c ∈ cs, c.isDigit = true) :
    digitsVal cs < 10 ^ cs.length := by
  have := digitsVal_foldl_lt cs 0 h
  simpa [digitsVal] using this

theorem daysInMonth_le_31 (y m : Nat) : daysInMonth y m ≤ 31 := by
  unfold daysInMonth
  split
  · split <;> omega
  · split <;> omega

theorem strptime_ymd_iff (s : String) (dt : Date) :
    strptime_ymd s = some dt ↔ LenientYMD s dt := by
  constructor
  · intro h
    cases hp : parse3 '-' s with
    | none => simp [strptime_ymd, hp] at h
    | some t =>
      obtain ⟨ys, ms, ds⟩ := t
      simp only [strptime_ymd, hp] at h
      split at h
      case isFalse => cases h
      case isTrue hcond =>
        obtain ⟨hy, hm, hd, hy1, hdm⟩ := hcond
        have hdt : dt = ⟨digitsVal ys, digitsVal ms, digitsVal ds⟩ := (Option.some.inj h).symm
        obtain ⟨hdecomp, _, _, _⟩ := (parse3_eq_some_iff '-' s ys ms ds).mp hp
        simp only [yearPat, monthPat, dayPat, Bool.and_eq_true, decide_eq_true_eq,
          Bool.or_eq_true, List.all_eq_true] at hy hm hd
        obtain ⟨hylen, hydig⟩ := hy
        obtain ⟨⟨⟨hmdig, hmlen⟩, hm1⟩, hm12⟩ := hm
        obtain ⟨⟨⟨hddig, hdlen⟩, hd1⟩, hd31⟩ := hd
        have hy9999 : digitsVal ys ≤ 9999 := by
          have := digitsVal_lt ys hydig
          rw [hylen] at this
          omega
        subst hdt
        refine ⟨ys, ms, ds, hdecomp, ⟨hylen, hydig, rfl⟩,
          ⟨by omega, by omega, hmdig, rfl⟩, ⟨by omega, by omega, hddig, rfl⟩, ?_⟩
        simp only [validDate, Bool.and_eq_true, decide_eq_true_eq]
        refine ⟨⟨⟨⟨⟨hy1, hy9999⟩, hm1⟩, hm12⟩, hd1⟩, hdm⟩
  · rintro ⟨ys, ms, ds, hdecomp, ⟨hylen, hydig, hyval⟩, ⟨hmlen1, hmlen2, hmdig, hmval⟩,
      ⟨hdlen1, hdlen2, hddig, hdval⟩, hvalid⟩
    have hsep : ('-' : Char).isDigit = false := by decide
    have hp : parse3 '-' s = some (ys, ms, ds) :=
      (parse3_eq_some_iff '-' s ys ms ds).mpr
        ⟨hdecomp, sep_not_mem_digits hsep hydig, sep_not_mem_digits hsep hmdig,
          sep_not_mem_digits hsep hddig⟩
    simp only [validDate, Bool.and_eq_true, decide_eq_true_eq] at hvalid
    obtain ⟨⟨⟨⟨⟨h1y, h2y⟩, h1m⟩, h2m⟩, h1d⟩, h2d⟩ := hvalid
    have hguard : yearPat ys = true ∧ monthPat ms = true ∧ dayPat ds = true
        ∧ 1 ≤ digitsVal ys ∧ digitsVal ds ≤ daysInMonth (digitsVal ys) (digitsVal ms) := by
      refine ⟨?_, ?_, ?_, ?_, ?_⟩
      · simp only [yearPat, Bool.and_eq_true, decide_eq_true_eq, List.all_eq_true]
        exact ⟨hylen, hydig⟩
      · simp only [monthPat, Bool.and_eq_true, decide_eq_true_eq, Bool.or_eq_true,
          List.all_eq_true]
        rw [hmval]
        exact ⟨⟨⟨hmdig, by omega⟩, h1m⟩, h2m⟩
      · simp only [dayPat, Bool.and_eq_true, decide_eq_true_eq, Bool.or_eq_true,
          List.all_eq_true]
        rw [hdval]
        exact ⟨⟨⟨hddig, by omega⟩, h1d⟩, le_trans h2d (daysInMonth_le_31 _ _)⟩
      · rw [hyval]; exact h1y
      · rw [hyval, hmval, hdval]; exact h2d
    simp only [strptime_ymd, hp]
    rw [if_pos hguard, hyval, hmval, hdval]

theorem strptime_mdy_iff (s : String) (dt : Date) :
    strptime_mdy s = some dt ↔ LenientMDY s dt := by
  constructor
  · intro h
    cases hp : parse3 '/' s with
    | none => simp [strptime_mdy, hp] at h
    | some t =>
      obtain ⟨ms, ds, ys⟩ := t
      simp only [strptime_mdy, hp] at h
      split at h
      case isFalse => cases h
      case isTrue hcond =>
        obtain ⟨hy, hm, hd, hy1, hdm⟩ := hcond
        have hdt : dt = ⟨digitsVal ys, digitsVal ms, digitsVal ds⟩ := (Option.some.inj h).symm
        obtain ⟨hdecomp, _, _, _⟩ := (parse3_eq_some_iff '/' s ms ds ys).mp hp
        simp only [yearPat, monthPat, dayPat, Bool.and_eq_true, decide_eq_true_eq,
          Bool.or_eq_true, List.all_eq_true] at hy hm hd
        obtain ⟨hylen, hydig⟩ := hy
        obtain ⟨⟨⟨hmdig, hmlen⟩, hm1⟩, hm12⟩ := hm
        obtain ⟨⟨⟨hddig, hdlen⟩, hd1⟩, hd31⟩ := hd
        have hy9999 : digitsVal ys ≤ 9999 := by
          have := digitsVal_lt ys hydig
          rw [hylen] at this
          omega
        subst hdt
        refine ⟨ms, ds, ys, hdecomp, ⟨hylen, hydig, rfl⟩,
          ⟨by omega, by omega, hmdig, rfl⟩, ⟨by omega, by omega, hddig, rfl⟩, ?_⟩
        simp only [validDate, Bool.and_eq_true, decide_eq_true_eq]
        refine ⟨⟨⟨⟨⟨hy1, hy9999⟩, hm1⟩, hm12⟩, hd1⟩, hdm⟩
  · rintro ⟨ms, ds, ys, hdecomp, ⟨hylen, hydig, hyval⟩, ⟨hmlen1, hmlen2, hmdig, hmval⟩,
      ⟨hdlen1, hdlen2, hddig, hdval⟩, hvalid⟩
    have hsep : ('/' : Char).isDigit = false := by decide
    have hp : parse3 '/' s = some (ms, ds, ys) :=
      (parse3_eq_some_iff '/' s ms ds ys).mpr
        ⟨hdecomp, sep_not_mem_digits hsep hmdig, sep_not_mem_digits hsep hddig,
          sep_not_mem_digits hsep hydig⟩
    simp only [validDate, Bool.and_eq_true, decide_eq_true_eq] at hvalid
    obtain ⟨⟨⟨⟨⟨h1y, h2y⟩, h1m⟩, h2m⟩, h1d⟩, h2d⟩ := hvalid
    have hguard : yearPat ys = true ∧ monthPat ms = true ∧ dayPat ds = true
        ∧ 1 ≤ digitsVal ys ∧ digitsVal ds ≤ daysInMonth (digitsVal ys) (digitsVal ms) := by
      refine ⟨?_, ?_, ?_, ?_, ?_⟩
      · simp only [yearPat, Bool.and_eq_true, decide_eq_true_eq, List.all_eq_true]
        exact ⟨hylen, hydig⟩
      · simp only [monthPat, Bool.and_eq_true, decide_eq_true_eq, Bool.or_eq_true,
          List.all_eq_true]
        rw [hmval]
        exact ⟨⟨⟨hmdig, by omega⟩, h1m⟩, h2m⟩
      · simp only [dayPat, Bool.and_eq_true, decide_eq_true_eq, Bool.or_eq_true,
          List.all_eq_true]
        rw [hdval]
        exact ⟨⟨⟨hddig, by omega⟩, h1d⟩, le_trans h2d (daysInMonth_le_31 _ _)⟩
      · rw [hyval]; exact h1y
      · rw [hyval, hmval, hdval]; exact h2d
    simp only [strptime_mdy, hp]
    rw [if_pos hguard, hyval, hmval, hdval]

theorem specYMD_lenient (s : String) (dt : Date) (h : specYMD s = some dt) :
    LenientYMD s dt := by
  simp only [specYMD] at h
  split at h
  case h_2 => cases h
  case h_1 y1 y2 y3 y4 h1 m1 m2 h2 d1 d2 heq =>
    split at h
    case isFalse => cases h
    case isTrue hc =>
      split at h
      case isFalse => cases h
      case isTrue hvalid =>
        have hdt : dt = ⟨digitsVal [y1, y2, y3, y4], digitsVal [m1, m2], digitsVal [d1, d2]⟩ :=
          (Option.some.inj h).symm
        simp only [Bool.and_eq_true, decide_eq_true_eq, List.all_eq_true] at hc
        obtain ⟨⟨⟨⟨hydig, hsep1⟩, hmdig⟩, hsep2⟩, hddig⟩ := hc
        subst hdt
        subst hsep1
        subst hsep2
        refine ⟨[y1, y2, y3, y4], [m1, m2], [d1, d2], by simpa using heq,
          ⟨rfl, hydig, rfl⟩, ⟨by simp, by simp, hmdig, rfl⟩,
          ⟨by simp, by simp, hddig, rfl⟩, hvalid⟩

theorem specMDY_lenient (s : String) (dt : Date) (h : specMDY s = some dt) :
    LenientMDY s dt := by
  simp only [specMDY] at h
  split at h
  case h_2 => cases h
  case h_1 m1 m2 h1 d1 d2 h2 y1 y2 y3 y4 heq =>
    split at h
    case isFalse => cases h
    case isTrue hc =>
      split at h
      case isFalse => cases h
      case isTrue hvalid =>
        have hdt : dt = ⟨digitsVal [y1, y2, y3, y4], digitsVal [m1, m2], digitsVal [d1, d2]⟩ :=
          (Option.some.inj h).symm
        simp only [Bool.and_eq_true, decide_eq_true_eq, List.all_eq_true] at hc
        obtain ⟨⟨⟨⟨hmdig, hsep1⟩, hddig⟩, hsep2⟩, hydig⟩ := hc
        subst hdt
        subst hsep1
        subst hsep2
        refine ⟨[m1, m2], [d1, d2], [y1, y2, y3, y4], by simpa using heq,
          ⟨rfl, hydig, rfl⟩, ⟨by simp, by simp, hmdig, rfl⟩,
          ⟨by simp, by simp, hddig, rfl⟩, hvalid⟩

theorem c2_counterexample :
    specYMD "2024-1-5" = none ∧ specMDY "2024-1-5" = none
    ∧ parse_date "2024-1-5" = some ⟨2024, 1, 5⟩ :=
  ⟨rfl, rfl, rfl⟩

/-- Claim C2 amended: the parser accepts exactly two separator formats
with the year written as exactly four digits and the month and day as one
or two digits: a string `Y-M-D` of that shape denoting a valid calendar
date returns that date; failing that, a string `M/D/Y` of that shape
returns that date; every other string (including the empty string) returns
no date.  The padded `YYYY-MM-DD` and `MM/DD/YYYY` forms of the original
claim are the two-digit special case. -/
theorem c2_two_format_parser_amended :
    (∀ (s : String) (dt : Date),
      parse_date s = some dt
        ↔ (LenientYMD s dt ∨ ((¬ ∃ dt', LenientYMD s dt') ∧ LenientMDY s dt)))
    ∧ (∀ (s : String) (dt : Date), specYMD s = some dt → LenientYMD s dt)
    ∧ (∀ (s : String) (dt : Date), specMDY s = some dt → LenientMDY s dt) := by
  refine ⟨?_, specYMD_lenient, specMDY_lenient⟩
  intro s dt
  constructor
  · intro h
    by_cases hs : s = ""
    · rw [hs] at h
      simp [parse_date] at h
    · cases hy : strptime_ymd s with
      | some d =>
        simp only [parse_date, if_neg hs, hy] at h
        have hd : d = dt := Option.some.inj h
        subst hd
        exact Or.inl ((strptime_ymd_iff s d).mp hy)
      | none =>
        simp only [parse_date, if_neg hs, hy] at h
        refine Or.inr ⟨?_, (strptime_mdy_iff s dt).mp h⟩
        rintro ⟨dt', hdt'⟩
        have := (strptime_ymd_iff s dt').mpr hdt'
        rw [this] at hy
        cases hy
  · intro h
    rcases h with h | ⟨hno, hmdy⟩
    · have hy := (strptime_ymd_iff s dt).mpr h
      have hs : s ≠ "" := by
        obtain ⟨ys, ms, ds, hdecomp, _, _, _, _⟩ := h
        intro he
        rw [he] at hdecomp
        have hnil : ([] : List Char) = ys ++ '-' :: (ms ++ '-' :: ds) := hdecomp
        cases ys <;> simp at hnil
      simp [parse_date, hs, hy]
    · have hm := (strptime_mdy_iff s dt).mpr hmdy
      have hyn : strptime_ymd s = none := by
        cases hy : strptime_ymd s with
        | none => rfl
        | some d => exact absurd ⟨d, (strptime_ymd_iff s d).mp hy⟩ hno
      have hs : s ≠ "" := by
        obtain ⟨ms, ds, ys, hdecomp, _, _, _, _⟩ := hmdy
        intro he
        rw [he] at hdecomp
        have hnil : ([] : List Char) = ms ++ '/' :: (ds ++ '/' :: ys) := hdecomp
        cases ms <;> simp at hnil
      simp [parse_date, hs, hyn, hm]

theorem c2_witness :
    LenientYMD "2024-01-15" ⟨2024, 1, 15⟩
    ∨ ((¬ ∃ dt', LenientYMD "2024-01-15" dt') ∧ LenientMDY "2024-01-15" ⟨2024, 1, 15⟩) :=
  (c2_two_format_parser_amended.1 "2024-01-15" ⟨2024, 1, 15⟩).mp rfl
